import Mathlib

/-!
Verification of the sticker-store (Frappe Books fork) specification.

The repository checkout carries two kinds of material. The files under
src/src/utils (ipcBridge.ts, mockIpc.ts) are present verbatim and are
embedded directly below. The bookkeeping core (document lifecycle,
ledger posting engine, formula engine, transactional persistence) is
described by the specification but its source is not part of the
checkout, so those components are modelled from the specification text;
every such definition carries a doc comment starting with
"Modelled from the spec:".
-/

/-! ## Core bookkeeping model (modelled from the spec) -/

/-- Modelled from the spec: lifecycle states of a Document
(`state ∈ \x7bDraft, Saved, Submitted, Cancelled\x7d`). -/
inductive DocState
  | Draft
  | Saved
  | Submitted
  | Cancelled
deriving DecidableEq, Repr

/-- Modelled from the spec: posting direction of a ledger entry (debit or credit). -/
inductive Direction
  | debit
  | credit
deriving DecidableEq, Repr

/-- The opposite posting direction, used when emitting reversal entries. -/
def Direction.flip : Direction → Direction
  | .debit => .credit
  | .credit => .debit

/-- Modelled from the spec: Field Value, a tagged union over the schema type tags
(text, numeric, date, boolean, link, currency); currency and numeric fields use the
fixed-point Numeric Value Type, represented exactly as an integer count of minor
units (fixed scale), never floating point. -/
inductive FieldValue
  | text (s : String)
  | numeric (n : Int)
  | date (d : Nat)
  | boolean (b : Bool)
  | link (id : String)
  | currency (n : Int)
deriving DecidableEq, Repr

/-- Modelled from the spec: a Ledger Entry references one Account, one originating
Document identifier, a signed Numeric Value Type amount and a posting direction;
reversal entries are tagged with the identifier of the entry they reverse. -/
structure LedgerEntry where
  entryId : Nat
  account : String
  docId : String
  amount : Int
  direction : Direction
  reversalOf : Option Nat
deriving DecidableEq, Repr

/-- The signed contribution of an entry to its account: debits count positively,
credits negatively. -/
def LedgerEntry.signed (e : LedgerEntry) : Int :=
  match e.direction with
  | .debit => e.amount
  | .credit => -e.amount

/-- Sum of the amounts of the debit entries, in exact fixed-point arithmetic. -/
def sumDebits (es : List LedgerEntry) : Int :=
  ((es.filter (fun e => e.direction = Direction.debit)).map (fun e => e.amount)).sum

/-- Sum of the amounts of the credit entries, in exact fixed-point arithmetic. -/
def sumCredits (es : List LedgerEntry) : Int :=
  ((es.filter (fun e => e.direction = Direction.credit)).map (fun e => e.amount)).sum

/-- Net signed amount contributed to account `a` by a batch of entries. -/
def netAmount (a : String) (es : List LedgerEntry) : Int :=
  ((es.filter (fun e => e.account = a)).map LedgerEntry.signed).sum

/-- Modelled from the spec: a Document is a mapping from field name to Field Value
plus lifecycle metadata: state, unique identifier, and a monotonically increasing
revision counter incremented on every persisted mutation. `savedSnapshot` is the
field mapping as of the last persisted mutation, used to detect whether field
values actually changed. -/
structure Document where
  docId : String
  fields : List (String × FieldValue)
  state : DocState
  revision : Nat
  savedSnapshot : Option (List (String × FieldValue))
deriving DecidableEq, Repr

/-- Numeric reading of a document field; 0 when absent or not numeric. -/
def Document.numField (doc : Document) (n : String) : Int :=
  match doc.fields.lookup n with
  | some (.numeric v) => v
  | some (.currency v) => v
  | _ => 0

/-- Modelled from the spec: an amount-expression, a pure function of field values
on the same Document, evaluated in exact fixed-point arithmetic. Used both by
posting rules and by formula (computed) fields. -/
inductive AmountExpr
  | fieldRef (name : String)
  | const (n : Int)
  | add (a b : AmountExpr)
  | sub (a b : AmountExpr)
  | mul (a b : AmountExpr)
deriving DecidableEq, Repr

/-- The field names an amount-expression reads (its declared dependencies). -/
def AmountExpr.deps : AmountExpr → List String
  | .fieldRef n => [n]
  | .const _ => []
  | .add a b => a.deps ++ b.deps
  | .sub a b => a.deps ++ b.deps
  | .mul a b => a.deps ++ b.deps

/-- Exact fixed-point evaluation of an amount-expression on a document. -/
def AmountExpr.eval (doc : Document) : AmountExpr → Int
  | .fieldRef n => doc.numField n
  | .const n => n
  | .add a b => a.eval doc + b.eval doc
  | .sub a b => a.eval doc - b.eval doc
  | .mul a b => a.eval doc * b.eval doc

/-- Modelled from the spec: a posting rule, a declarative mapping from Document
fields to an account, a direction and an amount-expression. -/
structure PostingRule where
  account : String
  direction : Direction
  amount : AmountExpr
deriving DecidableEq, Repr

/-- Modelled from the spec: a field definition (name, required flag, optional
formula for computed fields; `formula = none` marks a base field). -/
structure FieldDef where
  name : String
  required : Bool
  formula : Option AmountExpr
deriving DecidableEq, Repr

/-- Modelled from the spec: a Schema is an ordered sequence of field definitions
(declaration order is significant for formula tie-breaking), a submittable flag
and the posting rules used on submit. -/
structure Schema where
  name : String
  isSubmittable : Bool
  fieldDefs : List FieldDef
  postingRules : List PostingRule
deriving DecidableEq, Repr

/-- Modelled from the spec: the error taxonomy of the core (validation errors,
state errors, posting errors, persistence errors). -/
inductive CoreError
  | RequiredFieldMissing (fieldName : String)
  | IllegalStateTransition (src dst : DocState)
  | NotSubmittableError
  | UnbalancedPostingError
  | PersistenceError
  | CyclicFormulaError
deriving DecidableEq, Repr

/-! ## Validation, lifecycle transitions and posting (modelled from the spec) -/

/-- Modelled from the spec: required-field presence check, the first stage of the
Validation Engine; fails with `RequiredFieldMissing(fieldName)`. -/
def validateRequired (schema : Schema) (doc : Document) : Except CoreError Unit :=
  match schema.fieldDefs.find? (fun fd => fd.required && !(doc.fields.lookup fd.name).isSome) with
  | some fd => .error (.RequiredFieldMissing fd.name)
  | none => .ok ()

/-- Modelled from the spec: `save()`: Draft/Saved → Saved. Requires Validation
Engine success; increments the revision counter only if field values actually
changed since the last persisted mutation; produces no ledger entries (entries
are created only on the transition to Submitted). -/
def save (schema : Schema) (doc : Document) : Except CoreError (Document × List LedgerEntry) :=
  match doc.state with
  | .Draft | .Saved =>
    match validateRequired schema doc with
    | .error e => .error e
    | .ok _ =>
      .ok ({ doc with
               state := .Saved,
               revision :=
                 if doc.savedSnapshot ≠ some doc.fields then doc.revision + 1
                 else doc.revision,
               savedSnapshot := some doc.fields }, [])
  | s => .error (.IllegalStateTransition s .Saved)

/-- Modelled from the spec: evaluate one posting rule to a candidate ledger entry. -/
def evalRule (doc : Document) (p : Nat × PostingRule) : LedgerEntry :=
  { entryId := p.1,
    account := p.2.account,
    docId := doc.docId,
    amount := p.2.amount.eval doc,
    direction := p.2.direction,
    reversalOf := none }

/-- Modelled from the spec: the candidate entries produced by evaluating every
posting rule of the schema on the document. -/
def candidateEntries (schema : Schema) (doc : Document) : List LedgerEntry :=
  schema.postingRules.enum.map (evalRule doc)

/-- Modelled from the spec: the Ledger Posting Engine. Evaluate each posting rule
to a candidate entry; sum all debit amounts and all credit amounts in exact
Numeric Value Type arithmetic; if the two sums differ, fail with
`UnbalancedPostingError` and produce zero entries (the whole batch is discarded). -/
def postEntries (schema : Schema) (doc : Document) : Except CoreError (List LedgerEntry) :=
  if sumDebits (candidateEntries schema doc) = sumCredits (candidateEntries schema doc) then
    .ok (candidateEntries schema doc)
  else .error .UnbalancedPostingError

/-- Modelled from the spec: `submit()`: Saved → Submitted only; any other source
state fails with `IllegalStateTransition(from, to)`. Requires the schema to be
submittable, invokes the Ledger Posting Engine, and flips the state to Submitted
together with the produced entries (committed as one atomic unit). -/
def submit (schema : Schema) (doc : Document) : Except CoreError (Document × List LedgerEntry) :=
  match doc.state with
  | .Saved =>
    if schema.isSubmittable then
      match postEntries schema doc with
      | .error e => .error e
      | .ok es => .ok ({ doc with state := .Submitted }, es)
    else .error .NotSubmittableError
  | s => .error (.IllegalStateTransition s .Submitted)

/-- The document as observable after a submit attempt: unchanged when the
transition failed (errors leave no partial state). -/
def docAfterSubmit (schema : Schema) (doc : Document) : Document :=
  match submit schema doc with
  | .ok (d, _) => d
  | .error _ => doc

/-- The ledger entries persisted by a submit attempt: none when it failed. -/
def entriesAfterSubmit (schema : Schema) (doc : Document) : List LedgerEntry :=
  match submit schema doc with
  | .ok (_, es) => es
  | .error _ => []

/-- Modelled from the spec: the reversal entries for a batch of original entries;
for every original entry, one entry with the opposite direction and identical
amount against the same account, tagged with the original entry identifier.
Fresh entry identifiers start at `nextId`. -/
def reversalEntries (nextId : Nat) : List LedgerEntry → List LedgerEntry
  | [] => []
  | e :: rest =>
    { entryId := nextId,
      account := e.account,
      docId := e.docId,
      amount := e.amount,
      direction := e.direction.flip,
      reversalOf := some e.entryId } :: reversalEntries (nextId + 1) rest

/-- Decidable check that every account mentioned by a batch nets to zero. -/
def netZeroAll (es : List LedgerEntry) : Bool :=
  (es.map (fun e => e.account)).all (fun a => netAmount a es == 0)

/-- Modelled from the spec: `cancel()`: Submitted → Cancelled only; emits a
reversing entry for every original entry and re-verifies the zero-net invariant
before the reversals are accepted. -/
def cancel (doc : Document) (orig : List LedgerEntry) (nextId : Nat) :
    Except CoreError (Document × List LedgerEntry) :=
  match doc.state with
  | .Submitted =>
    if netZeroAll (orig ++ reversalEntries nextId orig) then
      .ok ({ doc with state := .Cancelled }, reversalEntries nextId orig)
    else .error .UnbalancedPostingError
  | s => .error (.IllegalStateTransition s .Cancelled)

/-! ## Transactional persistence layer (modelled from the spec) -/

/-- Modelled from the spec: the committed storage visible to readers — documents
by identifier plus the ledger entries. -/
structure Storage where
  docs : List (String × Document)
  entries : List LedgerEntry
deriving DecidableEq, Repr

/-- Replace or insert the committed copy of a document. -/
def upsertDoc (docs : List (String × Document)) (d : Document) : List (String × Document) :=
  (docs.filter (fun p => p.1 ≠ d.docId)) ++ [(d.docId, d)]

/-- Modelled from the spec: `commit(documentMutation, ledgerEntries)` is
all-or-nothing: the document write and each entry write are staged inside a
transaction; a storage failure at any write (injected here as `failAt`, the
zero-based index of the failing write: write 0 is the document, write `1 + i`
is entry `i`) rolls the transaction back and surfaces `PersistenceError`;
only a failure-free run commits the staged writes. -/
def commitTx (st : Storage) (failAt : Option Nat) (d : Document) (es : List LedgerEntry) :
    Except CoreError Storage :=
  match failAt with
  | some k =>
    if k < 1 + es.length then .error .PersistenceError
    else .ok ⟨upsertDoc st.docs d, st.entries ++ es⟩
  | none => .ok ⟨upsertDoc st.docs d, st.entries ++ es⟩

/-- The storage as observable after a commit attempt: on failure the transaction
was rolled back, so the prior storage is what remains visible. -/
def storageAfterCommit (st : Storage) (failAt : Option Nat) (d : Document)
    (es : List LedgerEntry) : Storage :=
  match commitTx st failAt d es with
  | .ok st' => st'
  | .error _ => st

/-! ## Validation and Formula Engine: formula evaluation order (modelled from the spec) -/

/-- Write a field value, replacing any previous binding of the same name. -/
def Document.setField (doc : Document) (n : String) (v : FieldValue) : Document :=
  { doc with fields := (doc.fields.filter (fun p => p.1 ≠ n)) ++ [(n, v)] }

/-- Modelled from the spec: one evaluation step — among the computed fields not
yet evaluated, taken in field declaration order, pick the first whose declared
dependencies are all available, evaluate its formula on the document and store
the result; fuel bounds the recursion (a fuel shortfall would mean a dependency
cycle, which registration rejects with `CyclicFormulaError`). -/
def evalFormulasAux : Nat → List String → List FieldDef → Document → Except CoreError Document
  | _, _, [], doc => .ok doc
  | 0, _, _, _ => .error .CyclicFormulaError
  | fuel + 1, avail, pending, doc =>
    match pending.find? (fun fd =>
        (fd.formula.map AmountExpr.deps).getD [] |>.all (fun d => avail.contains d)) with
    | none => .error .CyclicFormulaError
    | some fd =>
      match fd.formula with
      | none => .error .CyclicFormulaError
      | some f =>
        let doc' := doc.setField fd.name (.numeric (f.eval doc))
        evalFormulasAux fuel (avail ++ [fd.name]) (pending.filter (fun g => g.name ≠ fd.name)) doc'

/-- Modelled from the spec: formula evaluation for computed fields — a
topological pass over the declared dependency graph, ties broken by field
declaration order; base (formula-free) fields are available from the start. -/
def evalFormulas (schema : Schema) (doc : Document) : Except CoreError Document :=
  let computed := schema.fieldDefs.filter (fun fd => fd.formula.isSome)
  let base := (schema.fieldDefs.filter (fun fd => fd.formula.isNone)).map (fun fd => fd.name)
  evalFormulasAux (computed.length + 1) base computed doc

/-! ## Sample data shared by the concrete witnesses -/

/-- The Payment schema of the specification scenario: posting rules debit Cash
and credit Revenue by the `amount` field. -/
def paymentSchema : Schema :=
  { name := "Payment",
    isSubmittable := true,
    fieldDefs := [{ name := "amount", required := true, formula := none }],
    postingRules :=
      [{ account := "Cash", direction := .debit, amount := .fieldRef "amount" },
       { account := "Revenue", direction := .credit, amount := .fieldRef "amount" }] }

/-- A saved Payment document with amount 100.00 (10000 minor units). -/
def samplePayment : Document :=
  { docId := "PAY-001",
    fields := [("amount", .currency 10000)],
    state := .Saved,
    revision := 1,
    savedSnapshot := some [("amount", .currency 10000)] }

/-- The same Payment document as a Draft with no persisted snapshot yet. -/
def sampleDraft : Document :=
  { samplePayment with state := .Draft, revision := 0, savedSnapshot := none }

/-- The Payment document after submit. -/
def samplePaymentSubmitted : Document :=
  { samplePayment with state := .Submitted }

/-- The entries produced by submitting the sample Payment. -/
def samplePaymentEntries : List LedgerEntry :=
  [{ entryId := 0, account := "Cash", docId := "PAY-001", amount := 10000,
     direction := .debit, reversalOf := none },
   { entryId := 1, account := "Revenue", docId := "PAY-001", amount := 10000,
     direction := .credit, reversalOf := none }]

/-- The Payment document after cancellation. -/
def samplePaymentCancelled : Document :=
  { samplePayment with state := .Cancelled }

/-- The reversal entries produced by cancelling the sample Payment. -/
def sampleReversals : List LedgerEntry :=
  [{ entryId := 2, account := "Cash", docId := "PAY-001", amount := 10000,
     direction := .credit, reversalOf := some 0 },
   { entryId := 3, account := "Revenue", docId := "PAY-001", amount := 10000,
     direction := .debit, reversalOf := some 1 }]

/-- A schema whose posting rules are unbalanced: debit 150.00, credit 149.99. -/
def unbalancedSchema : Schema :=
  { name := "BadPayment",
    isSubmittable := true,
    fieldDefs := [],
    postingRules :=
      [{ account := "Cash", direction := .debit, amount := .const 15000 },
       { account := "Revenue", direction := .credit, amount := .const 14999 }] }

/-- A saved document for the unbalanced-posting scenario. -/
def sampleSavedBad : Document :=
  { docId := "PAY-002", fields := [], state := .Saved, revision := 1,
    savedSnapshot := some [] }

/-! ## Helper lemmas about posting, reversal and net amounts -/

theorem postEntries_ok_balanced (schema : Schema) (doc : Document) (es : List LedgerEntry)
    (h : postEntries schema doc = .ok es) : sumDebits es = sumCredits es := by
  unfold postEntries at h
  split at h
  · next hb => exact (Except.ok.injEq _ _).mp h ▸ hb
  · exact Except.noConfusion h

theorem netAmount_append (a : String) (xs ys : List LedgerEntry) :
    netAmount a (xs ++ ys) = netAmount a xs + netAmount a ys := by
  simp [netAmount, List.filter_append]

theorem netAmount_reversal (a : String) (orig : List LedgerEntry) (n : Nat) :
    netAmount a (reversalEntries n orig) = -netAmount a orig := by
  induction orig generalizing n with
  | nil => simp [reversalEntries, netAmount]
  | cons e rest ih =>
    by_cases hacc : e.account = a
    · simp only [reversalEntries, netAmount, List.filter_cons, hacc]
      simp only [netAmount] at ih
      cases hd : e.direction <;>
        simp [LedgerEntry.signed, Direction.flip, hd, ih, hacc] <;> ring
    · simp only [reversalEntries, netAmount, List.filter_cons, hacc]
      simp only [netAmount] at ih
      simp [hacc, ih]

theorem mem_reversalEntries (orig : List LedgerEntry) :
    ∀ (n : Nat) (e : LedgerEntry), e ∈ orig →
    ∃ r ∈ reversalEntries n orig, r.direction = e.direction.flip ∧ r.amount = e.amount ∧
      r.account = e.account ∧ r.reversalOf = some e.entryId := by
  induction orig with
  | nil => intro n e he; cases he
  | cons x rest ih =>
    intro n e he
    cases he with
    | head =>
      exact ⟨{ entryId := n, account := x.account, docId := x.docId, amount := x.amount,
               direction := x.direction.flip, reversalOf := some x.entryId },
             List.mem_cons_self _ _, rfl, rfl, rfl, rfl⟩
    | tail _ hmem =>
      obtain ⟨r, hr, hprops⟩ := ih (n + 1) e hmem
      exact ⟨r, List.mem_cons_of_mem _ hr, hprops⟩

/-! ## Claim theorems for the bookkeeping core -/

/-- C1: for every Document that reaches the Submitted state, the sum of its
debit ledger entries equals the sum of its credit ledger entries, computed in
the fixed-point Numeric Value Type arithmetic with exact equality. -/
theorem submitted_document_balanced (schema : Schema) (doc d' : Document)
    (es : List LedgerEntry) (h : submit schema doc = .ok (d', es)) :
    d'.state = .Submitted ∧ sumDebits es = sumCredits es := by
  unfold submit at h
  split at h
  · split at h
    · cases hp : postEntries schema doc with
      | error e => rw [hp] at h; exact Except.noConfusion h
      | ok cs =>
        rw [hp] at h
        simp only [Except.ok.injEq, Prod.mk.injEq] at h
        obtain ⟨hd, hes⟩ := h
        subst hd; subst hes
        exact ⟨rfl, postEntries_ok_balanced schema doc cs hp⟩
    · exact Except.noConfusion h
  · exact Except.noConfusion h

/-- C1 witness: the sample Payment submit succeeds and its two entries balance. -/
theorem submitted_document_balanced_witness :
    samplePaymentSubmitted.state = .Submitted ∧
    sumDebits samplePaymentEntries = sumCredits samplePaymentEntries :=
  submitted_document_balanced paymentSchema samplePayment samplePaymentSubmitted
    samplePaymentEntries (by rfl)

/-- C2: every Submitted-to-Cancelled transition emits, for each original entry,
a reversing entry with the opposite direction and identical amount tagged with
the original entry identifier, and the net signed amount per account of the
original entries together with the reversals is exactly zero. -/
theorem cancel_reverses_to_net_zero (doc d' : Document) (orig revs : List LedgerEntry)
    (n : Nat) (h : cancel doc orig n = .ok (d', revs)) :
    d'.state = .Cancelled ∧
    (∀ e ∈ orig, ∃ r ∈ revs, r.direction = e.direction.flip ∧ r.amount = e.amount ∧
        r.account = e.account ∧ r.reversalOf = some e.entryId) ∧
    ∀ a, netAmount a (orig ++ revs) = 0 := by
  unfold cancel at h
  split at h
  · split at h
    · simp only [Except.ok.injEq, Prod.mk.injEq] at h
      obtain ⟨hd, hr⟩ := h
      subst hd; subst hr
      refine ⟨rfl, mem_reversalEntries orig n, ?_⟩
      intro a
      rw [netAmount_append, netAmount_reversal]
      omega
    · exact Except.noConfusion h
  · exact Except.noConfusion h

/-- C2 witness: cancelling the sample submitted Payment reverses both entries
and leaves Cash and Revenue each at net zero. -/
theorem cancel_reverses_to_net_zero_witness :
    samplePaymentCancelled.state = .Cancelled ∧
    netAmount "Cash" (samplePaymentEntries ++ sampleReversals) = 0 ∧
    netAmount "Revenue" (samplePaymentEntries ++ sampleReversals) = 0 := by
  have h := cancel_reverses_to_net_zero samplePaymentSubmitted samplePaymentCancelled
    samplePaymentEntries sampleReversals 2 (by rfl)
  exact ⟨h.1, h.2.2 "Cash", h.2.2 "Revenue"⟩

/-- C3: submit() succeeds only from Saved; on a Draft document it fails with
IllegalStateTransition and the document stays in Draft, unchanged. -/
theorem submit_from_draft_fails (schema : Schema) (doc : Document)
    (h : doc.state = .Draft) :
    submit schema doc = .error (.IllegalStateTransition .Draft .Submitted) ∧
    docAfterSubmit schema doc = doc ∧ (docAfterSubmit schema doc).state = .Draft := by
  have hs : submit schema doc = .error (.IllegalStateTransition .Draft .Submitted) := by
    unfold submit
    rw [h]
  have hd : docAfterSubmit schema doc = doc := by
    unfold docAfterSubmit
    rw [hs]
  refine ⟨hs, hd, ?_⟩
  rw [hd, h]

/-- C3 witness: submitting the sample Draft Payment fails and leaves it a Draft. -/
theorem submit_from_draft_fails_witness :
    submit paymentSchema sampleDraft = .error (.IllegalStateTransition .Draft .Submitted) ∧
    docAfterSubmit paymentSchema sampleDraft = sampleDraft ∧
    (docAfterSubmit paymentSchema sampleDraft).state = .Draft :=
  submit_from_draft_fails paymentSchema sampleDraft (by rfl)

/-- C4: when the candidate debit sum differs from the candidate credit sum, the
posting engine fails with UnbalancedPostingError, zero entries are persisted and
the document remains Saved. -/
theorem unbalanced_posting_fails (schema : Schema) (doc : Document)
    (h1 : doc.state = .Saved) (h2 : schema.isSubmittable = true)
    (h3 : sumDebits (candidateEntries schema doc) ≠ sumCredits (candidateEntries schema doc)) :
    submit schema doc = .error .UnbalancedPostingError ∧
    entriesAfterSubmit schema doc = [] ∧
    docAfterSubmit schema doc = doc ∧ (docAfterSubmit schema doc).state = .Saved := by
  have hp : postEntries schema doc = .error .UnbalancedPostingError := by
    unfold postEntries
    rw [if_neg h3]
  have hs : submit schema doc = .error .UnbalancedPostingError := by
    simp only [submit, h1, h2, if_true, hp]
  have hd : docAfterSubmit schema doc = doc := by
    unfold docAfterSubmit
    rw [hs]
  refine ⟨hs, ?_, hd, ?_⟩
  · unfold entriesAfterSubmit
    rw [hs]
  · rw [hd, h1]

/-- C4 witness: the 150.00 debit versus 149.99 credit scenario fails with
UnbalancedPostingError, persists nothing and keeps the document Saved. -/
theorem unbalanced_posting_fails_witness :
    submit unbalancedSchema sampleSavedBad = .error .UnbalancedPostingError ∧
    entriesAfterSubmit unbalancedSchema sampleSavedBad = [] ∧
    docAfterSubmit unbalancedSchema sampleSavedBad = sampleSavedBad ∧
    (docAfterSubmit unbalancedSchema sampleSavedBad).state = .Saved :=
  unbalanced_posting_fails unbalancedSchema sampleSavedBad (by rfl) (by rfl) (by decide)

/-- C5: the persistence commit of a document mutation with its ledger entries is
all-or-nothing: a storage failure at any write inside the transaction surfaces
PersistenceError and leaves the previously committed storage unchanged (document
in its pre-transition state, no entries visible). -/
theorem commit_failure_atomic (st : Storage) (k : Nat) (d : Document)
    (es : List LedgerEntry) (hk : k < 1 + es.length) :
    commitTx st (some k) d es = .error .PersistenceError ∧
    storageAfterCommit st (some k) d es = st := by
  have hc : commitTx st (some k) d es = .error .PersistenceError := by
    simp only [commitTx, hk, if_true]
  refine ⟨hc, ?_⟩
  unfold storageAfterCommit
  rw [hc]

/-- C5 witness: a failure while writing the first ledger entry of the sample
Payment commit surfaces PersistenceError and leaves the empty storage unchanged. -/
theorem commit_failure_atomic_witness :
    commitTx ⟨[], []⟩ (some 1) samplePaymentSubmitted samplePaymentEntries =
      .error .PersistenceError ∧
    storageAfterCommit ⟨[], []⟩ (some 1) samplePaymentSubmitted samplePaymentEntries =
      ⟨[], []⟩ :=
  commit_failure_atomic ⟨[], []⟩ 1 samplePaymentSubmitted samplePaymentEntries (by decide)

/-! ## Formula-ordering scenario data -/

/-- Base field A of the formula-ordering scenario. -/
def formulaFieldA : FieldDef := { name := "A", required := true, formula := none }

/-- Computed field B = A * 2. -/
def formulaFieldB : FieldDef :=
  { name := "B", required := false, formula := some (.mul (.fieldRef "A") (.const 2)) }

/-- Computed field C = B + 1. -/
def formulaFieldC : FieldDef :=
  { name := "C", required := false, formula := some (.add (.fieldRef "B") (.const 1)) }

/-- Schema declaring the computed fields in the order B before C. -/
def formulaSchemaBC : Schema :=
  { name := "FormulaDemo", isSubmittable := false,
    fieldDefs := [formulaFieldA, formulaFieldB, formulaFieldC], postingRules := [] }

/-- Schema declaring the computed fields in the order C before B. -/
def formulaSchemaCB : Schema :=
  { name := "FormulaDemo", isSubmittable := false,
    fieldDefs := [formulaFieldA, formulaFieldC, formulaFieldB], postingRules := [] }

/-- A document with base field A = 5. -/
def formulaDocA5 : Document :=
  { docId := "F-001", fields := [("A", .numeric 5)], state := .Draft, revision := 0,
    savedSnapshot := none }

/-- C6: formula evaluation proceeds in topological order of the declared
dependency graph with ties broken by declaration order; for A (base), B = A*2,
C = B+1, evaluating a document with A = 5 yields B = 10 and C = 11 in both
declaration orders of B and C. -/
theorem formula_order_independent :
    ((evalFormulas formulaSchemaBC formulaDocA5).map
        (fun d => (d.numField "B", d.numField "C")) = .ok (10, 11)) ∧
    ((evalFormulas formulaSchemaCB formulaDocA5).map
        (fun d => (d.numField "B", d.numField "C")) = .ok (10, 11)) := by
  constructor <;> rfl

/-- C7: calling save() twice on an unchanged Draft document is idempotent — the
second call produces no ledger entries, leaves the revision counter unchanged
(revision is incremented only when field values actually changed), and returns
the document unchanged. -/
theorem save_twice_idempotent (schema : Schema) (doc d1 d2 : Document)
    (es1 es2 : List LedgerEntry)
    (hd : doc.state = .Draft)
    (h1 : save schema doc = .ok (d1, es1))
    (h2 : save schema d1 = .ok (d2, es2)) :
    es2 = [] ∧ d2.revision = d1.revision ∧ d2 = d1 := by
  cases hv : validateRequired schema doc with
  | error e =>
    exfalso
    unfold save at h1
    rw [hd, hv] at h1
    exact Except.noConfusion h1
  | ok u =>
    unfold save at h1
    rw [hd, hv] at h1
    injection h1 with hpair1
    injection hpair1 with hdoc1 hes1
    subst hdoc1
    have hv2 : validateRequired schema
        ({ doc with
             state := .Saved,
             revision :=
               if doc.savedSnapshot ≠ some doc.fields then doc.revision + 1
               else doc.revision,
             savedSnapshot := some doc.fields }) = .ok u := hv
    unfold save at h2
    rw [hv2] at h2
    injection h2 with hpair2
    injection hpair2 with hdoc2 hes2
    subst hdoc2
    refine ⟨hes2.symm, ?_, ?_⟩ <;> simp

/-- The sample Draft Payment after one successful save. -/
def sampleDraftSaved : Document :=
  { sampleDraft with
    state := .Saved, revision := 1, savedSnapshot := some sampleDraft.fields }

/-- C7 witness: saving the sample Draft Payment twice yields no entries on the
second call and leaves revision and document unchanged. -/
theorem save_twice_idempotent_witness :
    ([] : List LedgerEntry) = [] ∧ sampleDraftSaved.revision = sampleDraftSaved.revision ∧
    sampleDraftSaved = sampleDraftSaved :=
  save_twice_idempotent paymentSchema sampleDraft sampleDraftSaved sampleDraftSaved [] []
    (by rfl) (by rfl) (by rfl)

/-! ## IPC bridge environment check (src/src/utils/ipcBridge.ts) -/

/-- A JavaScript runtime value, distinguished as far as the ipcBridge
environment check observes it: truthiness and the typeof tag. -/
inductive JsValue
  | undefined
  | null
  | boolean (b : Bool)
  | number (n : Int)
  | string (s : String)
  | object (id : Nat)
  | function (id : Nat)
deriving DecidableEq, Repr

/-- JavaScript truthiness of a value (null, undefined, false, 0 and the empty
string are falsy; objects and functions are always truthy). -/
def JsValue.truthy : JsValue → Bool
  | .undefined => false
  | .null => false
  | .boolean b => b
  | .number n => n != 0
  | .string s => s != ""
  | .object _ => true
  | .function _ => true

/-- The JavaScript typeof tag of a value; note typeof null is "object". -/
def JsValue.typeofTag : JsValue → String
  | .undefined => "undefined"
  | .null => "object"
  | .boolean _ => "boolean"
  | .number _ => "number"
  | .string _ => "string"
  | .object _ => "object"
  | .function _ => "function"

/-- A value is a non-null object (the wording of the claim): typeof gives
"object" and the value is not null. -/
def JsValue.isNonNullObject : JsValue → Bool
  | .object _ => true
  | _ => false

/-- The browser window object as seen by getIpc: its `ipc` property (reading a
missing property yields undefined). -/
structure BrowserWindow where
  ipc : JsValue
deriving DecidableEq, Repr

/-- The runtime environment of ipcBridge.ts: `window` is undefined outside a
browser. -/
structure JsEnv where
  window : Option BrowserWindow
deriving DecidableEq, Repr

/-- The result of getIpc: either the real `window.ipc` value or the mock. -/
inductive IpcChoice
  | windowIpc (v : JsValue)
  | mock
deriving DecidableEq, Repr

/-- getIpc from ipcBridge.ts: if typeof window is not undefined, window.ipc is
truthy and typeof window.ipc is "object", return window.ipc; otherwise fall
back to mockIpc. -/
def getIpc (env : JsEnv) : IpcChoice :=
  match env.window with
  | some w =>
    if w.ipc.truthy && (w.ipc.typeofTag == "object") then .windowIpc w.ipc
    else .mock
  | none => .mock

/-- C8: getIpc is total and deterministic on the environment: it returns
window.ipc exactly when window is defined and window.ipc is a non-null object,
and returns the mock otherwise, so the exported ipc value is always defined. -/
theorem getIpc_nonnull_object_switch (env : JsEnv) :
    getIpc env = (match env.window with
      | some w => if w.ipc.isNonNullObject then IpcChoice.windowIpc w.ipc else IpcChoice.mock
      | none => IpcChoice.mock) := by
  obtain ⟨w⟩ := env
  cases w with
  | none => rfl
  | some win =>
    obtain ⟨v⟩ := win
    cases v <;>
      simp [getIpc, JsValue.truthy, JsValue.typeofTag, JsValue.isNonNullObject]

/-! ## Mock IPC database methods (src/src/utils/mockIpc.ts) -/

/-- The response produced by every mock database method. -/
structure DbResponse where
  success : Bool
  error : String
deriving DecidableEq, Repr

/-- db.getSchema from mockIpc.ts (console logging elided: it has no effect on
the returned value and cannot throw). -/
def dbGetSchema : DbResponse :=
  { success := false, error := "Database not available in browser" }

/-- db.create from mockIpc.ts. -/
def dbCreate (dbPath : String) (countryCode : Option String) : DbResponse :=
  { success := false, error := "Database not available in browser" }

/-- db.connect from mockIpc.ts. -/
def dbConnect (dbPath : String) (countryCode : Option String) : DbResponse :=
  { success := false, error := "Database not available in browser" }

/-- db.call from mockIpc.ts (variadic arguments modelled as a list). -/
def dbCall (method : String) (args : List JsValue) : DbResponse :=
  { success := false, error := "Database not available in browser" }

/-- db.bespoke from mockIpc.ts. -/
def dbBespoke (method : String) (args : List JsValue) : DbResponse :=
  { success := false, error := "Database not available in browser" }

/-- C9: every database method of the mock IPC returns, for all inputs, an
object with success = false and error = "Database not available in browser";
each is a total function (none throws). -/
theorem mock_db_methods_unavailable :
    dbGetSchema = { success := false, error := "Database not available in browser" } ∧
    (∀ p cc, dbCreate p cc = { success := false, error := "Database not available in browser" }) ∧
    (∀ p cc, dbConnect p cc = { success := false, error := "Database not available in browser" }) ∧
    (∀ m args, dbCall m args = { success := false, error := "Database not available in browser" }) ∧
    (∀ m args, dbBespoke m args = { success := false, error := "Database not available in browser" }) :=
  ⟨rfl, fun _ _ => rfl, fun _ _ => rfl, fun _ _ => rfl, fun _ _ => rfl⟩

/-! ## JSON values and serialization (model of the JSON.stringify / JSON.parse
builtins used by the mock store) -/

/-- A JSON-serializable value as handled by the mock store: null, boolean,
integral number, string, array or object. Strings are modelled as character
lists. -/
inductive Json
  | null
  | bool (b : Bool)
  | num (n : Int)
  | str (s : List Char)
  | arr (xs : List Json)
  | obj (kvs : List (List Char × Json))

/-- The decimal digit character for a digit value (values above nine clamp to
the digit nine; they never arise from a decimal decomposition). -/
def digitChar : Nat → Char
  | 0 => '0'
  | 1 => '1'
  | 2 => '2'
  | 3 => '3'
  | 4 => '4'
  | 5 => '5'
  | 6 => '6'
  | 7 => '7'
  | 8 => '8'
  | _ => '9'

/-- The digit value of a decimal digit character. -/
def charDigit (c : Char) : Nat := c.toNat - 48

/-- Whether a character is a decimal digit. -/
def isDigitChar (c : Char) : Bool := 48 ≤ c.toNat && c.toNat ≤ 57

/-- The decimal digits of a natural number, most significant first. -/
def natDigits (n : Nat) : List Nat :=
  if h : n < 10 then [n]
  else natDigits (n / 10) ++ [n % 10]
termination_by n
decreasing_by
  exact Nat.div_lt_self (by omega) (by omega)

/-- The decimal character rendering of a natural number. -/
def natToChars (n : Nat) : List Char := (natDigits n).map digitChar

/-- The decimal character rendering of an integer (sign, then digits). -/
def intToChars (n : Int) : List Char :=
  if n < 0 then '-' :: natToChars n.natAbs else natToChars n.toNat

/-- JSON string escaping of one character: quote and backslash are escaped with
a backslash, all other characters stand for themselves. -/
def escChar (c : Char) : List Char :=
  if c = '"' ∨ c = '\\' then ['\\', c] else [c]

/-- JSON string escaping of a character sequence. -/
def escString : List Char → List Char
  | [] => []
  | c :: cs => escChar c ++ escString cs

/-- The rendering of the JSON null keyword. -/
def jsNullChars : List Char := ['n', 'u', 'l', 'l']

/-- The rendering of the JSON true keyword. -/
def jsTrueChars : List Char := ['t', 'r', 'u', 'e']

/-- The rendering of the JSON false keyword. -/
def jsFalseChars : List Char := ['f', 'a', 'l', 's', 'e']

mutual

/-- JSON.stringify: render a JSON value as its canonical character sequence. -/
def stringify : Json → List Char
  | .null => jsNullChars
  | .bool true => jsTrueChars
  | .bool false => jsFalseChars
  | .num n => intToChars n
  | .str s => '"' :: (escString s ++ ['"'])
  | .arr xs => '[' :: (stringifyElems xs ++ [']'])
  | .obj kvs => '{' :: (stringifyMembers kvs ++ ['}'])

/-- The comma-separated rendering of array elements. -/
def stringifyElems : List Json → List Char
  | [] => []
  | [x] => stringify x
  | x :: y :: ys => stringify x ++ ',' :: stringifyElems (y :: ys)

/-- The comma-separated rendering of object members. -/
def stringifyMembers : List (List Char × Json) → List Char
  | [] => []
  | [(k, v)] => '"' :: (escString k ++ '"' :: ':' :: stringify v)
  | (k, v) :: kv :: kvs =>
    ('"' :: (escString k ++ '"' :: ':' :: stringify v)) ++ ',' :: stringifyMembers (kv :: kvs)

end

/-- Greedy decimal digit consumption with an accumulator; stops at the first
character that is not a digit. -/
def parseNatAux : List Char → Nat → Nat × List Char
  | [], acc => (acc, [])
  | c :: cs, acc =>
    if isDigitChar c then parseNatAux cs (acc * 10 + charDigit c) else (acc, c :: cs)

/-- Consume an expected literal character sequence off the input. -/
def expectChars : List Char → List Char → Option (List Char)
  | [], input => some input
  | _ :: _, [] => none
  | k :: ks, c :: cs => if c = k then expectChars ks cs else none

mutual

/-- String-body parsing: consume characters until the closing unescaped quote,
unescaping backslash escapes; returns the string and the remaining input, or
none when the input ends before the closing quote. -/
def parseStrAux : List Char → List Char → Option (List Char × List Char)
  | [], _ => none
  | c :: cs, acc =>
    if c = '"' then some (acc.reverse, cs)
    else if c = '\\' then parseStrEsc cs acc
    else parseStrAux cs (c :: acc)
termination_by l _ => l.length

/-- Consume the character following a backslash escape. -/
def parseStrEsc : List Char → List Char → Option (List Char × List Char)
  | [], _ => none
  | d :: ds, acc => parseStrAux ds (d :: acc)
termination_by l _ => l.length

end

/-- Parse a negative number after the minus sign. -/
def parseNeg : List Char → Option (Json × List Char)
  | [] => none
  | d :: ds =>
    if isDigitChar d then
      some (.num (-((parseNatAux ds (charDigit d)).1 : Int)), (parseNatAux ds (charDigit d)).2)
    else none

mutual

/-- JSON.parse, fuelled: parse one JSON value off the front of the input and
return it with the remaining input. -/
def parseJson : Nat → List Char → Option (Json × List Char)
  | 0, _ => none
  | _ + 1, [] => none
  | fuel + 1, c :: cs =>
    if c = 'n' then
      (expectChars ['u', 'l', 'l'] cs).map (fun rest => (.null, rest))
    else if c = 't' then
      (expectChars ['r', 'u', 'e'] cs).map (fun rest => (.bool true, rest))
    else if c = 'f' then
      (expectChars ['a', 'l', 's', 'e'] cs).map (fun rest => (.bool false, rest))
    else if c = '"' then
      (parseStrAux cs []).map (fun p => (.str p.1, p.2))
    else if c = '[' then
      (parseElems fuel cs).map (fun p => (.arr p.1, p.2))
    else if c = '{' then
      (parseMembers fuel cs).map (fun p => (.obj p.1, p.2))
    else if c = '-' then
      parseNeg cs
    else if isDigitChar c then
      some (.num ((parseNatAux cs (charDigit c)).1 : Int), (parseNatAux cs (charDigit c)).2)
    else none

/-- Parse the elements of an array after the opening bracket, including the
closing bracket. -/
def parseElems : Nat → List Char → Option (List Json × List Char)
  | 0, _ => none
  | _ + 1, [] => none
  | fuel + 1, c :: cs =>
    if c = ']' then some ([], cs)
    else
      match parseJson fuel (c :: cs) with
      | none => none
      | some (v, rest) =>
        match rest with
        | [] => none
        | d :: ds =>
          if d = ',' then (parseElems fuel ds).map (fun p => (v :: p.1, p.2))
          else if d = ']' then some ([v], ds)
          else none

/-- Parse the members of an object after the opening brace, including the
closing brace. -/
def parseMembers : Nat → List Char → Option (List (List Char × Json) × List Char)
  | 0, _ => none
  | _ + 1, [] => none
  | fuel + 1, c :: cs =>
    if c = '}' then some ([], cs)
    else if c = '"' then
      match parseStrAux cs [] with
      | none => none
      | some (k, rest) =>
        match rest with
        | [] => none
        | d :: ds =>
          if d = ':' then
            match parseJson fuel ds with
            | none => none
            | some (v, rest2) =>
              match rest2 with
              | [] => none
              | e :: es =>
                if e = ',' then (parseMembers fuel es).map (fun p => ((k, v) :: p.1, p.2))
                else if e = '}' then some ([(k, v)], es)
                else none
          else none
    else none

end

/-! ## Round-trip lemmas: decimal digits -/

/-- Whether the input does not start with a digit (greedy number parsing stops
here). -/
def headNotDigit : List Char → Bool
  | [] => true
  | c :: _ => !(isDigitChar c)

theorem natDigits_ne_nil (n : Nat) : natDigits n ≠ [] := by
  rw [natDigits]
  split
  · exact List.cons_ne_nil _ _
  · exact List.append_ne_nil_of_right_ne_nil _ (List.cons_ne_nil _ _)

theorem natDigits_lt_ten (n : Nat) : ∀ d ∈ natDigits n, d < 10 := by
  induction n using Nat.strong_induction_on with
  | _ n ih =>
    rw [natDigits]
    split
    · next h =>
      intro d hd
      simp only [List.mem_singleton] at hd
      omega
    · next h =>
      intro d hd
      rw [List.mem_append] at hd
      rcases hd with hd | hd
      · exact ih (n / 10) (Nat.div_lt_self (by omega) (by omega)) d hd
      · simp only [List.mem_singleton] at hd
        omega

theorem charDigit_digitChar (d : Nat) (h : d < 10) : charDigit (digitChar d) = d := by
  interval_cases d <;> rfl

theorem isDigitChar_digitChar (d : Nat) : isDigitChar (digitChar d) = true := by
  rcases d with _ | _ | _ | _ | _ | _ | _ | _ | _ | d <;> rfl

theorem natDigits_foldl (n : Nat) :
    (natDigits n).foldl (fun a d => a * 10 + d) 0 = n := by
  induction n using Nat.strong_induction_on with
  | _ n ih =>
    rw [natDigits]
    split
    · simp
    · next h =>
      rw [List.foldl_append]
      rw [ih (n / 10) (Nat.div_lt_self (by omega) (by omega))]
      simp only [List.foldl_cons, List.foldl_nil]
      omega

theorem parseNatAux_digits (ds : List Nat) (hds : ∀ d ∈ ds, d < 10) :
    ∀ (rest : List Char) (acc : Nat),
    parseNatAux ((ds.map digitChar) ++ rest) acc =
      parseNatAux rest (ds.foldl (fun a d => a * 10 + d) acc) := by
  induction ds with
  | nil => intro rest acc; rfl
  | cons d ds ih =>
    intro rest acc
    have hd : d < 10 := hds d (List.mem_cons_self _ _)
    simp only [List.map_cons, List.cons_append, parseNatAux, isDigitChar_digitChar,
      if_true, List.foldl_cons]
    rw [charDigit_digitChar d hd]
    exact ih (fun x hx => hds x (List.mem_cons_of_mem _ hx)) rest (acc * 10 + d)

theorem parseNatAux_stop (rest : List Char) (acc : Nat) (h : headNotDigit rest = true) :
    parseNatAux rest acc = (acc, rest) := by
  cases rest with
  | nil => rfl
  | cons c cs =>
    simp only [headNotDigit, Bool.not_eq_true'] at h
    simp [parseNatAux, h]

theorem parseNat_natToChars (n : Nat) (rest : List Char) (hrest : headNotDigit rest = true) :
    ∃ d ds, natToChars n = d :: ds ∧ isDigitChar d = true ∧
      parseNatAux (ds ++ rest) (charDigit d) = (n, rest) := by
  obtain ⟨d0, ds0, hdig⟩ : ∃ d0 ds0, natDigits n = d0 :: ds0 := by
    cases h : natDigits n with
    | nil => exact absurd h (natDigits_ne_nil n)
    | cons a l => exact ⟨a, l, rfl⟩
  refine ⟨digitChar d0, ds0.map digitChar, ?_, isDigitChar_digitChar d0, ?_⟩
  · rw [natToChars, hdig, List.map_cons]
  · have hd0 : d0 < 10 := natDigits_lt_ten n d0 (by rw [hdig]; exact List.mem_cons_self _ _)
    have hds0 : ∀ d ∈ ds0, d < 10 := fun d hd =>
      natDigits_lt_ten n d (by rw [hdig]; exact List.mem_cons_of_mem _ hd)
    rw [charDigit_digitChar d0 hd0]
    rw [parseNatAux_digits ds0 hds0 rest d0]
    rw [parseNatAux_stop rest _ hrest]
    have : ds0.foldl (fun a d => a * 10 + d) d0 = n := by
      have h0 : (natDigits n).foldl (fun a d => a * 10 + d) 0 = n := natDigits_foldl n
      rw [hdig] at h0
      simpa using h0
    rw [this]

/-! ## Round-trip lemmas: strings and leading characters -/

theorem parseStrAux_esc (s : List Char) :
    ∀ (acc rest : List Char),
    parseStrAux (escString s ++ '"' :: rest) acc = some (acc.reverse ++ s, rest) := by
  induction s with
  | nil =>
    intro acc rest
    simp [escString, parseStrAux]
  | cons c cs ih =>
    intro acc rest
    by_cases hc : c = '"' ∨ c = '\\'
    · simp only [escString, escChar, if_pos hc, List.cons_append, List.append_assoc,
        List.nil_append]
      have h1 : ('\\' = '"') = False := by simp
      simp only [parseStrAux, parseStrEsc, h1, if_false, if_pos rfl, if_true]
      rw [ih (c :: acc) rest]
      simp
    · push_neg at hc
      simp only [escString, escChar, if_neg (by tauto : ¬(c = '"' ∨ c = '\\')),
        List.cons_append, List.append_assoc, List.nil_append]
      simp only [parseStrAux, if_neg hc.1, if_neg hc.2]
      rw [ih (c :: acc) rest]
      simp

theorem isDigitChar_ne_special (c : Char) (h : isDigitChar c = true) :
    c ≠ ']' ∧ c ≠ '}' ∧ c ≠ ',' ∧ c ≠ ':' ∧
    c ≠ 'n' ∧ c ≠ 't' ∧ c ≠ 'f' ∧ c ≠ '"' ∧ c ≠ '[' ∧ c ≠ '{' ∧ c ≠ '-' := by
  refine ⟨?_, ?_, ?_, ?_, ?_, ?_, ?_, ?_, ?_, ?_, ?_⟩ <;>
    (intro heq; subst heq; exact absurd h (by decide))

/-- The first character of a rendered JSON value, with the facts needed to
drive the parser: it is never a closing bracket, closing brace, comma or colon. -/
theorem stringify_head (v : Json) :
    ∃ c cs, stringify v = c :: cs ∧ c ≠ ']' ∧ c ≠ '}' ∧ c ≠ ',' ∧ c ≠ ':' := by
  cases v with
  | null => refine ⟨'n', _, rfl, ?_, ?_, ?_, ?_⟩ <;> decide
  | bool b =>
    cases b with
    | true => refine ⟨'t', _, rfl, ?_, ?_, ?_, ?_⟩ <;> decide
    | false => refine ⟨'f', _, rfl, ?_, ?_, ?_, ?_⟩ <;> decide
  | num n =>
    by_cases hn : n < 0
    · refine ⟨'-', natToChars n.natAbs, ?_, ?_, ?_, ?_, ?_⟩
      · simp [stringify, intToChars, hn]
      all_goals decide
    · obtain ⟨d, ds, hnat, hdig, _⟩ :=
        parseNat_natToChars n.toNat [] (by rfl)
      refine ⟨d, ds, ?_, ?_, ?_, ?_, ?_⟩
      · simp [stringify, intToChars, hn, hnat]
      · exact (isDigitChar_ne_special d hdig).1
      · exact (isDigitChar_ne_special d hdig).2.1
      · exact (isDigitChar_ne_special d hdig).2.2.1
      · exact (isDigitChar_ne_special d hdig).2.2.2.1
  | str s => refine ⟨'"', _, rfl, ?_, ?_, ?_, ?_⟩ <;> decide
  | arr xs => refine ⟨'[', _, rfl, ?_, ?_, ?_, ?_⟩ <;> decide
  | obj kvs => refine ⟨'{', _, rfl, ?_, ?_, ?_, ?_⟩ <;> decide

/-! ## Fuel bookkeeping for the parser -/

mutual

/-- Fuel required to parse a rendered value. -/
def jsize : Json → Nat
  | .arr xs => 2 + jsizeElems xs
  | .obj kvs => 2 + jsizeMembers kvs
  | _ => 1

/-- Fuel required to parse rendered array elements. -/
def jsizeElems : List Json → Nat
  | [] => 0
  | x :: xs => 1 + jsize x + jsizeElems xs

/-- Fuel required to parse rendered object members. -/
def jsizeMembers : List (List Char × Json) → Nat
  | [] => 0
  | kv :: kvs => 1 + jsize kv.2 + jsizeMembers kvs

end

/-! ## The parser inverts the printer -/

theorem parse_stringify_round (fuel : Nat) :
    (∀ (v : Json) (rest : List Char), jsize v ≤ fuel → headNotDigit rest = true →
      parseJson fuel (stringify v ++ rest) = some (v, rest)) ∧
    (∀ (xs : List Json) (rest : List Char), jsizeElems xs < fuel →
      parseElems fuel (stringifyElems xs ++ ']' :: rest) = some (xs, rest)) ∧
    (∀ (kvs : List (List Char × Json)) (rest : List Char), jsizeMembers kvs < fuel →
      parseMembers fuel (stringifyMembers kvs ++ '}' :: rest) = some (kvs, rest)) := by
  induction fuel with
  | zero =>
    refine ⟨?_, ?_, ?_⟩
    · intro v rest hv _
      exfalso
      cases v <;> simp [jsize] at hv
    · intro xs rest hx
      exact absurd hx (by omega)
    · intro kvs rest hk
      exact absurd hk (by omega)
  | succ f ih =>
    obtain ⟨ihJ, ihE, ihM⟩ := ih
    refine ⟨?_, ?_, ?_⟩
    · intro v rest hv hrest
      cases v with
      | null =>
        simp [stringify, parseJson, expectChars, jsNullChars, jsTrueChars, jsFalseChars]
      | bool b =>
        cases b <;> simp [stringify, parseJson, expectChars, jsNullChars, jsTrueChars, jsFalseChars]
      | num n =>
        by_cases hn : n < 0
        · obtain ⟨d, ds, hnat, hdig, hparse⟩ := parseNat_natToChars n.natAbs rest hrest
          simp only [stringify, intToChars, if_pos hn, hnat, List.cons_append]
          rw [parseJson]
          simp only [show ('-' = 'n') = False by simp, show ('-' = 't') = False by simp,
            show ('-' = 'f') = False by simp, show ('-' = '"') = False by simp,
            show ('-' = '[') = False by simp, show ('-' = '{') = False by simp,
            if_false, if_pos rfl, if_true]
          rw [parseNeg]
          simp only [hdig, if_true, hparse]
          simp [abs_of_neg hn]
        · obtain ⟨d, ds, hnat, hdig, hparse⟩ := parseNat_natToChars n.toNat rest hrest
          obtain ⟨_, _, _, _, h1, h2, h3, h4, h5, h6, h7⟩ := isDigitChar_ne_special d hdig
          simp only [stringify, intToChars, if_neg hn, hnat, List.cons_append]
          rw [parseJson]
          simp only [h1, h2, h3, h4, h5, h6, h7, if_false, hdig, if_true, hparse,
            if_neg h1, if_neg h2, if_neg h3, if_neg h4, if_neg h5, if_neg h6, if_neg h7]
          have : ((n.toNat : Nat) : Int) = n := by omega
          simp [this, hparse]
      | str s =>
        simp only [stringify, List.cons_append, List.append_assoc, List.nil_append]
        rw [parseJson]
        simp only [show ('"' = 'n') = False by simp, show ('"' = 't') = False by simp,
          show ('"' = 'f') = False by simp, if_false, if_pos rfl, if_true]
        rw [parseStrAux_esc s [] rest]
        simp
      | arr xs =>
        have hx : jsizeElems xs < f := by
          simp only [jsize] at hv
          omega
        simp only [stringify, List.cons_append, List.append_assoc, List.nil_append]
        rw [parseJson]
        simp only [show ('[' = 'n') = False by simp, show ('[' = 't') = False by simp,
          show ('[' = 'f') = False by simp, show ('[' = '"') = False by simp,
          if_false, if_pos rfl, if_true]
        rw [ihE xs rest hx]
        simp
      | obj kvs =>
        have hk : jsizeMembers kvs < f := by
          simp only [jsize] at hv
          omega
        simp only [stringify, List.cons_append, List.append_assoc, List.nil_append]
        rw [parseJson]
        simp only [show ('{' = 'n') = False by simp, show ('{' = 't') = False by simp,
          show ('{' = 'f') = False by simp, show ('{' = '"') = False by simp,
          show ('{' = '[') = False by simp, if_false, if_pos rfl, if_true]
        rw [ihM kvs rest hk]
        simp
    · intro xs rest hx
      cases xs with
      | nil =>
        simp [stringifyElems, parseElems]
      | cons x xs' =>
        obtain ⟨c, cs, hhead, hne1, hne2, hne3, hne4⟩ := stringify_head x
        cases xs' with
        | nil =>
          have hfx : jsize x ≤ f := by
            simp only [jsizeElems] at hx
            omega
          have hpj : parseJson f (c :: (cs ++ ']' :: rest)) = some (x, ']' :: rest) := by
            have h := ihJ x (']' :: rest) hfx (by rfl)
            rw [hhead] at h
            simpa using h
          simp only [stringifyElems, hhead, List.cons_append]
          rw [parseElems]
          rw [if_neg hne1]
          rw [hpj]
          simp
        | cons y ys =>
          have hfx : jsize x ≤ f := by
            simp only [jsizeElems] at hx
            omega
          have hfy : jsizeElems (y :: ys) < f := by
            simp only [jsizeElems] at hx ⊢
            omega
          have hpj : parseJson f (c :: (cs ++ ',' :: (stringifyElems (y :: ys) ++ ']' :: rest))) =
              some (x, ',' :: (stringifyElems (y :: ys) ++ ']' :: rest)) := by
            have h := ihJ x (',' :: (stringifyElems (y :: ys) ++ ']' :: rest)) hfx (by rfl)
            rw [hhead] at h
            simpa using h
          simp only [stringifyElems, hhead, List.cons_append, List.append_assoc,
            List.nil_append]
          rw [parseElems]
          rw [if_neg hne1]
          rw [hpj]
          simp only []
          rw [ihE (y :: ys) rest hfy]
          simp
    · intro kvs rest hk
      cases kvs with
      | nil =>
        simp [stringifyMembers, parseMembers]
      | cons kv kvs' =>
        obtain ⟨k, v⟩ := kv
        cases kvs' with
        | nil =>
          have hfv : jsize v ≤ f := by
            simp only [jsizeMembers] at hk
            omega
          have hpj : parseJson f (stringify v ++ '}' :: rest) = some (v, '}' :: rest) :=
            ihJ v ('}' :: rest) hfv (by rfl)
          simp only [stringifyMembers, List.cons_append, List.append_assoc, List.nil_append]
          rw [parseMembers]
          simp only [show ('"' = '}') = False by simp, if_false, if_pos rfl, if_true]
          rw [parseStrAux_esc k [] (':' :: (stringify v ++ '}' :: rest))]
          simp only [List.reverse_nil, List.nil_append]
          simp only [show (':' = ':') = True by simp, if_true]
          rw [hpj]
          simp
        | cons kv2 kvs2 =>
          have hfv : jsize v ≤ f := by
            simp only [jsizeMembers] at hk
            omega
          have hfk2 : jsizeMembers (kv2 :: kvs2) < f := by
            simp only [jsizeMembers] at hk ⊢
            omega
          have hpj : parseJson f
              (stringify v ++ ',' :: (stringifyMembers (kv2 :: kvs2) ++ '}' :: rest)) =
              some (v, ',' :: (stringifyMembers (kv2 :: kvs2) ++ '}' :: rest)) :=
            ihJ v (',' :: (stringifyMembers (kv2 :: kvs2) ++ '}' :: rest)) hfv (by rfl)
          simp only [stringifyMembers, List.cons_append, List.append_assoc, List.nil_append]
          rw [parseMembers]
          simp only [show ('"' = '}') = False by simp, if_false, if_pos rfl, if_true]
          rw [parseStrAux_esc k []
            (':' :: (stringify v ++ ',' :: (stringifyMembers (kv2 :: kvs2) ++ '}' :: rest)))]
          simp only [List.reverse_nil, List.nil_append]
          simp only [show (':' = ':') = True by simp, if_true]
          rw [hpj]
          simp only []
          rw [ihM (kv2 :: kvs2) rest hfk2]
          simp

/-! ## Fuel from the input length suffices -/

theorem jsize_le_twice_length (n : Nat) :
    (∀ v : Json, sizeOf v ≤ n → jsize v ≤ 2 * (stringify v).length) ∧
    (∀ xs : List Json, sizeOf xs ≤ n → jsizeElems xs ≤ 2 * (stringifyElems xs).length + 1) ∧
    (∀ kvs : List (List Char × Json), sizeOf kvs ≤ n →
      jsizeMembers kvs ≤ 2 * (stringifyMembers kvs).length + 1) := by
  induction n using Nat.strong_induction_on with
  | _ n ih =>
    refine ⟨?_, ?_, ?_⟩
    · intro v hn
      cases v with
      | null => simp [jsize, stringify, jsNullChars]
      | bool b => cases b <;> simp [jsize, stringify, jsTrueChars, jsFalseChars]
      | num m =>
        have : (stringify (Json.num m)).length ≥ 1 := by
          obtain ⟨c, cs, h, _⟩ := stringify_head (Json.num m)
          rw [h]
          simp
        simp only [jsize]
        omega
      | str s =>
        simp only [jsize, stringify, List.length_cons, List.length_append,
          List.length_singleton]
        omega
      | arr xs =>
        have hs : sizeOf xs < n := by
          have : sizeOf (Json.arr xs) = 1 + sizeOf xs := by simp
          omega
        have hE := (ih (sizeOf xs) hs).2.1 xs (le_refl _)
        simp only [jsize, stringify, List.length_cons, List.length_append,
          List.length_singleton]
        omega
      | obj kvs =>
        have hs : sizeOf kvs < n := by
          have : sizeOf (Json.obj kvs) = 1 + sizeOf kvs := by simp
          omega
        have hM := (ih (sizeOf kvs) hs).2.2 kvs (le_refl _)
        simp only [jsize, stringify, List.length_cons, List.length_append,
          List.length_singleton]
        omega
    · intro xs hn
      cases xs with
      | nil => simp [jsizeElems, stringifyElems]
      | cons x xs' =>
        have hx : sizeOf x < n := by
          have : sizeOf (x :: xs') = 1 + sizeOf x + sizeOf xs' := by simp
          have hpos : 0 ≤ sizeOf xs' := Nat.zero_le _
          omega
        have hV := (ih (sizeOf x) hx).1 x (le_refl _)
        cases xs' with
        | nil =>
          simp only [jsizeElems, stringifyElems]
          omega
        | cons y ys =>
          have hy : sizeOf (y :: ys) < n := by
            have h1 : sizeOf (x :: y :: ys) = 1 + sizeOf x + sizeOf (y :: ys) := by simp
            have h2 : 0 < sizeOf x := by cases x <;> simp
            omega
          have hE := (ih (sizeOf (y :: ys)) hy).2.1 (y :: ys) (le_refl _)
          simp only [jsizeElems, stringifyElems, List.length_append, List.length_cons]
          simp only [jsizeElems] at hE
          omega
    · intro kvs hn
      cases kvs with
      | nil => simp [jsizeMembers, stringifyMembers]
      | cons kv kvs' =>
        obtain ⟨k, v⟩ := kv
        have hv : sizeOf v < n := by
          have h1 : sizeOf ((k, v) :: kvs') = 1 + (1 + sizeOf k + sizeOf v) + sizeOf kvs' := by
            simp
          omega
        have hV := (ih (sizeOf v) hv).1 v (le_refl _)
        cases kvs' with
        | nil =>
          simp only [jsizeMembers, stringifyMembers, List.length_cons, List.length_append]
          omega
        | cons kv2 kvs2 =>
          have hk2 : sizeOf (kv2 :: kvs2) < n := by
            have h1 : sizeOf ((k, v) :: kv2 :: kvs2) =
                1 + (1 + sizeOf k + sizeOf v) + sizeOf (kv2 :: kvs2) := by simp
            omega
          have hM := (ih (sizeOf (kv2 :: kvs2)) hk2).2.2 (kv2 :: kvs2) (le_refl _)
          simp only [jsizeMembers, stringifyMembers, List.length_append, List.length_cons]
          simp only [jsizeMembers] at hM
          omega

/-- JSON.parse as a total function of the input: run the fuelled parser with
fuel proportional to the input length and require the whole input to be one
value (JSON.parse throws on trailing input; the throw is modelled as none). -/
def jsonParse (s : List Char) : Option Json :=
  match parseJson (2 * s.length) s with
  | some (v, []) => some v
  | _ => none

theorem stringify_ne_nil (v : Json) : stringify v ≠ [] := by
  obtain ⟨c, cs, h, _⟩ := stringify_head v
  rw [h]
  exact List.cons_ne_nil _ _

/-- The JSON round trip: parsing a rendered value yields the value back. -/
theorem jsonParse_stringify (v : Json) : jsonParse (stringify v) = some v := by
  have hb : jsize v ≤ 2 * (stringify v).length :=
    (jsize_le_twice_length (sizeOf v)).1 v (le_refl _)
  have h := (parse_stringify_round (2 * (stringify v).length)).1 v [] hb (by rfl)
  rw [List.append_nil] at h
  unfold jsonParse
  rw [h]

/-! ## Mock IPC store (src/src/utils/mockIpc.ts) over localStorage -/

/-- A thrown JavaScript exception from the storage layer. -/
inductive JsError
  | thrown
deriving DecidableEq, Repr

/-- The browser localStorage visible to the mock store: key-value pairs of
strings (modelled as character lists), plus a flag under which every storage
operation throws (quota exceeded or private browsing mode). -/
structure LocalStorage where
  items : List (List Char × List Char)
  failing : Bool
deriving DecidableEq, Repr

/-- localStorage.getItem: the stored string, null (none) when absent; throws
when the storage is failing. -/
def localStorageGetItem (ls : LocalStorage) (k : List Char) :
    Except JsError (Option (List Char)) :=
  if ls.failing then .error .thrown else .ok (ls.items.lookup k)

/-- localStorage.setItem: replaces the value stored under the key; throws when
the storage is failing. -/
def localStorageSetItem (ls : LocalStorage) (k v : List Char) :
    Except JsError LocalStorage :=
  if ls.failing then .error .thrown
  else .ok { ls with items := (ls.items.filter (fun p => p.1 ≠ k)) ++ [(k, v)] }

/-- localStorage.removeItem; throws when the storage is failing. -/
def localStorageRemoveItem (ls : LocalStorage) (k : List Char) :
    Except JsError LocalStorage :=
  if ls.failing then .error .thrown
  else .ok { ls with items := ls.items.filter (fun p => p.1 ≠ k) }

/-- The mock store namespaces its keys under the application prefix. -/
def prefixKey (k : List Char) : List Char := "frappe-books:".toList ++ k

/-- store.get from mockIpc.ts: read the prefixed key inside try/catch; a throw
or an absent or empty (falsy) value yields undefined, otherwise JSON.parse of
the stored string (a parse throw is caught and yields undefined too). -/
def storeGet (ls : LocalStorage) (k : List Char) : Option Json :=
  match localStorageGetItem ls (prefixKey k) with
  | .error _ => none
  | .ok none => none
  | .ok (some v) => if v = [] then none else jsonParse v

/-- store.set from mockIpc.ts: write JSON.stringify of the value under the
prefixed key inside try/catch; a throw is swallowed and leaves the storage
unchanged. -/
def storeSet (ls : LocalStorage) (k : List Char) (v : Json) : LocalStorage :=
  match localStorageSetItem ls (prefixKey k) (stringify v) with
  | .ok ls' => ls'
  | .error _ => ls

/-- store.delete from mockIpc.ts: remove the prefixed key inside try/catch; a
throw is swallowed and leaves the storage unchanged. -/
def storeDelete (ls : LocalStorage) (k : List Char) : LocalStorage :=
  match localStorageRemoveItem ls (prefixKey k) with
  | .ok ls' => ls'
  | .error _ => ls

theorem lookup_filter_append (l : List (List Char × List Char)) (k v : List Char) :
    ((l.filter (fun p => p.1 ≠ k)) ++ [(k, v)]).lookup k = some v := by
  induction l with
  | nil => simp [List.lookup]
  | cons p l ih =>
    obtain ⟨pk, pv⟩ := p
    rw [List.filter_cons]
    by_cases hp : pk = k
    · rw [if_neg (by simp [hp])]
      exact ih
    · rw [if_pos (by simp [hp])]
      rw [List.cons_append]
      have hbeq : (k == pk) = false := by
        simp only [beq_eq_false_iff_ne, ne_eq]
        exact fun heq => hp heq.symm
      simp only [List.lookup, hbeq]
      simpa using ih

/-- The same lookup fact with the filter predicate in the Boolean normal form
produced by simp. -/
theorem lookup_filter_append_bool (l : List (List Char × List Char)) (k v : List Char) :
    List.lookup k ((l.filter (fun p => !decide (p.1 = k))) ++ [(k, v)]) = some v := by
  simpa using lookup_filter_append l k v

/-- C10: the mock IPC store operations never raise: store.get, store.set and
store.delete catch all underlying storage exceptions (get returns undefined on
failure; set and delete swallow the throw, leaving the storage unchanged), and
when the underlying storage succeeds, store.get after store.set returns the
stored value for every JSON-serializable value, via the JSON stringify/parse
round trip. -/
theorem store_never_raises_roundtrip :
    (∀ ls k, ls.failing = true → storeGet ls k = none) ∧
    (∀ ls k v, ls.failing = true → storeSet ls k v = ls) ∧
    (∀ ls k, ls.failing = true → storeDelete ls k = ls) ∧
    (∀ ls k v, ls.failing = false → storeGet (storeSet ls k v) k = some v) := by
  refine ⟨?_, ?_, ?_, ?_⟩
  · intro ls k h
    simp [storeGet, localStorageGetItem, h]
  · intro ls k v h
    simp [storeSet, localStorageSetItem, h]
  · intro ls k h
    simp [storeDelete, localStorageRemoveItem, h]
  · intro ls k v h
    simp [storeGet, storeSet, localStorageGetItem, localStorageSetItem, h,
      lookup_filter_append_bool, stringify_ne_nil v, jsonParse_stringify v]

/-- C10 witness: on a healthy empty storage, get after set returns the stored
number back, and on a failing storage get returns undefined. -/
theorem store_never_raises_roundtrip_witness :
    storeGet (storeSet ⟨[], false⟩ ['k'] (Json.num 5)) ['k'] = some (Json.num 5) ∧
    storeGet ⟨[], true⟩ ['k'] = none :=
  ⟨store_never_raises_roundtrip.2.2.2 ⟨[], false⟩ ['k'] (Json.num 5) rfl,
   store_never_raises_roundtrip.1 ⟨[], true⟩ ['k'] rfl⟩
